import Mathlib

/-!
Verification of the raster-utils core: shallow embedding of the `raster-utils` crate: geometry primitives and the
`geo` crate's `AffineTransform` (`src/geometry.rs`), the alignment engine
(`src/align.rs`), the chunk configuration and its builder
(`src/chunking/mod.rs`, `src/chunking/builder.rs`), and the chunk iterator.

Modelling choices:

* Rust `f64` values are modelled as exact rationals (`ℚ`); all concrete
  inputs used below stay well inside the range where `f64` arithmetic is
  exact, so the embedding is faithful there.
* The external `geo` crate's `AffineTransform` is a six-parameter affine map
  `(x, y) ↦ (a·x + b·y + xoff, d·x + e·y + yoff)`.  Its `compose` is matrix
  multiplication with `self` applied first and the argument applied second
  (`self.compose(other) = other ∘ self`); `translate(tx, ty)` is the pure
  translation; `Rect::new` normalises the two corners componentwise to a
  min corner and a max corner.  The key facts used about `chunk_transform`
  below (its value on the identity transform) are independent of the
  compose order, because composing with the identity is the identity in
  either order.
* Rust `usize` is modelled as `Nat`.  `usize` subtraction panics on
  underflow; `Nat` subtraction truncates.  Every theorem below evaluates
  subtraction only at points where no underflow occurs, except where a
  panic is itself part of the reported divergence (noted in place).
* `f64 as usize` truncates toward zero and saturates below at `0`; on the
  (checked) non-negative values appearing here it is `Int.toNat ∘ floor`.
-/

namespace RasterUtils

/-- Embedding of `geo::Coord<f64>`, with `f64` modelled as `ℚ`. -/
structure Coord where
  x : ℚ
  y : ℚ
  deriving DecidableEq

instance : Add Coord := ⟨fun p q => ⟨p.x + q.x, p.y + q.y⟩⟩

instance : Sub Coord := ⟨fun p q => ⟨p.x - q.x, p.y - q.y⟩⟩

/-- Embedding of `geo::AffineTransform<f64>`: the affine map
`(x, y) ↦ (a·x + b·y + xoff, d·x + e·y + yoff)`. -/
structure AffineTransform where
  a : ℚ
  b : ℚ
  xoff : ℚ
  d : ℚ
  e : ℚ
  yoff : ℚ
  deriving DecidableEq

/-- Embedding of `geo`'s `apply`: apply an affine transform to a coordinate. -/
def AffineTransform.apply (t : AffineTransform) (c : Coord) : Coord :=
  ⟨t.a * c.x + t.b * c.y + t.xoff, t.d * c.x + t.e * c.y + t.yoff⟩

/-- Embedding of `geo::AffineTransform::translate`. -/
def AffineTransform.translate (tx ty : ℚ) : AffineTransform :=
  ⟨1, 0, tx, 0, 1, ty⟩

/-- Embedding of `geo::AffineTransform::identity`. -/
def AffineTransform.identity : AffineTransform :=
  ⟨1, 0, 0, 0, 1, 0⟩

/-- Embedding of `geo::AffineTransform::compose`: `self` applied first, then `other`
(the matrix product `other · self`). -/
def AffineTransform.compose (self other : AffineTransform) : AffineTransform where
  a := other.a * self.a + other.b * self.d
  b := other.a * self.b + other.b * self.e
  xoff := other.a * self.xoff + other.b * self.yoff + other.xoff
  d := other.d * self.a + other.e * self.d
  e := other.d * self.b + other.e * self.e
  yoff := other.d * self.xoff + other.e * self.yoff + other.yoff

/-- Source `geometry.rs`: `Size` — size `(x, y)` of a raster or window, in pixels. -/
def Size : Type := Nat × Nat

/-- Source `geometry.rs`: `Offset` — offset `(x, y)` in pixels within a raster. -/
def Offset : Type := Nat × Nat

/-- Source `geometry.rs::as_f64`: componentwise `usize → f64` cast. -/
def as_f64 (t : Nat × Nat) : ℚ × ℚ :=
  ((t.1 : ℚ), (t.2 : ℚ))

/-- Source `geometry.rs::as_usize`: componentwise `f64::floor` then `as usize`
(saturating at `0` for negative values, like the Rust cast). -/
def as_usize (t : ℚ × ℚ) : Nat × Nat :=
  (t.1.floor.toNat, t.2.floor.toNat)

/-- Embedding of `geo::Rect<f64>`: an axis-aligned rectangle held as min/max corners. -/
structure Rect where
  rmin : Coord
  rmax : Coord
  deriving DecidableEq

/-- Embedding of `geo::Rect::new`: normalises the two given corners componentwise. -/
def Rect.new (c1 c2 : Coord) : Rect :=
  ⟨⟨min c1.x c2.x, min c1.y c2.y⟩, ⟨max c1.x c2.x, max c1.y c2.y⟩⟩

/-- Source `geometry.rs::RasterWindow`: a block of contiguous data in a raster. -/
structure RasterWindow where
  rect : Rect
  deriving DecidableEq

/-- Source `RasterWindow::num_pixels`: `geo`'s `unsigned_area` of the rectangle
(`width · height`, non-negative by the `Rect` normalisation), cast to
`usize`. -/
def RasterWindow.num_pixels (w : RasterWindow) : Nat :=
  ((w.rect.rmax.x - w.rect.rmin.x) * (w.rect.rmax.y - w.rect.rmin.y)).floor.toNat

/-- Source `RasterWindow::offset`. -/
def RasterWindow.offset (w : RasterWindow) : Nat × Nat :=
  as_usize (w.rect.rmin.x, w.rect.rmin.y)

/-- Source `RasterWindow::size`. -/
def RasterWindow.size (w : RasterWindow) : Nat × Nat :=
  as_usize (w.rect.rmax.x - w.rect.rmin.x, w.rect.rmax.y - w.rect.rmin.y)

/-- Source `RasterWindow::shape`: `(row, column)` order. -/
def RasterWindow.shape (w : RasterWindow) : Nat × Nat :=
  let p := w.size
  (p.2, p.1)

/-- Source `impl From<(Offset, Size)> for RasterWindow`. -/
def RasterWindow.from_offset_size (offset size : Nat × Nat) : RasterWindow :=
  let m : Coord := ⟨(as_f64 offset).1, (as_f64 offset).2⟩
  let mx : Coord := m + ⟨(as_f64 size).1, (as_f64 size).2⟩
  ⟨Rect.new m mx⟩

/-- Source `chunking/mod.rs::ChunkConfig` (`end` renamed `end_`: Lean keyword). -/
structure ChunkConfig where
  width : Nat
  height : Nat
  block_size : Nat
  data_height : Nat
  padding : Nat
  start : Nat
  end_ : Nat
  deriving DecidableEq

/-- Source `impl<'a> From<ChunkWindow<'a>> for RasterWindow`: the code
destructures the triple as `(cfg, start, end)` and builds the window from
offset `(0, start)` and size `(cfg.width(), end - start)`.  (In Rust the
subtraction panics when the third element is smaller than `start`; `Nat`
subtraction truncates there instead.) -/
def RasterWindow.from_chunk_window (cfg : ChunkConfig) (start end_ : Nat) :
    RasterWindow :=
  RasterWindow.from_offset_size (0, start) (cfg.width, end_ - start)

/-- Source `chunking/mod.rs::next_multiple`: smallest multiple of `m` that is at
least `num` (Rust `num.div_ceil(m) * m`; this form agrees with it for every
`m > 0`, the only way it is called). -/
def next_multiple (num m : Nat) : Nat :=
  ((num + m - 1) / m) * m

/-- Source `builder.rs::ChunkConfigBuilder::new` (arguments are `NonZeroUsize` in
Rust; positivity is carried as a hypothesis where it matters). -/
def ChunkConfigBuilder.new (width height : Nat) : ChunkConfig :=
  { width := width, height := height, block_size := 1, data_height := 1,
    padding := 0, start := 0, end_ := height }

/-- Source `builder.rs::adjust_data_height`: re-align `data_height` upward to a
multiple of `block_size`. -/
def ChunkConfig.adjust_data_height (c : ChunkConfig) : ChunkConfig :=
  { c with data_height := next_multiple c.data_height c.block_size }

/-- Source `builder.rs::add_block_size`: replace `block_size` by the lcm with the
argument only when they differ, then re-align `data_height`. -/
def ChunkConfig.add_block_size (c : ChunkConfig) (block_size : Nat) : ChunkConfig :=
  if c.block_size ≠ block_size then
    ChunkConfig.adjust_data_height
      { c with block_size := Nat.lcm c.block_size block_size }
  else c

/-- Source `builder.rs::with_data_height`. -/
def ChunkConfig.with_data_height (c : ChunkConfig) (data_height : Nat) : ChunkConfig :=
  ChunkConfig.adjust_data_height { c with data_height := data_height }

/-- Source `builder.rs::with_data_size`: ceiling division of the pixel budget by
the width, then `with_data_height`. -/
def ChunkConfig.with_data_size (c : ChunkConfig) (data_size : Nat) : ChunkConfig :=
  c.with_data_height ((data_size + c.width - 1) / c.width)

/-- Source `builder.rs::adjust_start`: clamp `start` up to at least `padding`. -/
def ChunkConfig.adjust_start (c : ChunkConfig) : ChunkConfig :=
  { c with start := max c.start c.padding }

/-- Source `builder.rs::with_padding`. -/
def ChunkConfig.with_padding (c : ChunkConfig) (padding : Nat) : ChunkConfig :=
  ChunkConfig.adjust_start { c with padding := padding }

/-- Source `builder.rs::with_start`. -/
def ChunkConfig.with_start (c : ChunkConfig) (start : Nat) : ChunkConfig :=
  ChunkConfig.adjust_start { c with start := start }

/-- Source `builder.rs::with_end`: silently clip to `height`. -/
def ChunkConfig.with_end (c : ChunkConfig) (e : Nat) : ChunkConfig :=
  { c with end_ := min e c.height }

/-- Accumulate a list of block sizes with `add_block_size`. -/
def ChunkConfig.add_block_sizes (c : ChunkConfig) (l : List Nat) : ChunkConfig :=
  l.foldl ChunkConfig.add_block_size c

/-- The documented `ChunkConfig` invariants (spec §3 and builder doc
comments): positive dimensions and block data, block alignment, the
padding clamp on `start`, and `end` clipped to `height`. -/
def ChunkConfig.Valid (c : ChunkConfig) : Prop :=
  0 < c.width ∧ 0 < c.height ∧ 0 < c.block_size ∧ 0 < c.data_height ∧
    c.block_size ∣ c.data_height ∧ c.padding ≤ c.start ∧ c.end_ ≤ c.height

instance (c : ChunkConfig) : Decidable c.Valid := by
  unfold ChunkConfig.Valid; infer_instance

/-- Configurations reachable through the builder API, with the
`NonZeroUsize` argument types of `builder.rs` reflected as positivity
hypotheses. -/
inductive BuilderReachable : ChunkConfig → Prop
  | new (w h : Nat) (hw : 0 < w) (hh : 0 < h) :
      BuilderReachable (ChunkConfigBuilder.new w h)
  | add_block_size (c : ChunkConfig) (b : Nat) (hc : BuilderReachable c)
      (hb : 0 < b) : BuilderReachable (c.add_block_size b)
  | with_data_height (c : ChunkConfig) (h : Nat) (hc : BuilderReachable c)
      (hh : 0 < h) : BuilderReachable (c.with_data_height h)
  | with_data_size (c : ChunkConfig) (s : Nat) (hc : BuilderReachable c)
      (hs : 0 < s) : BuilderReachable (c.with_data_size s)
  | with_padding (c : ChunkConfig) (p : Nat) (hc : BuilderReachable c) :
      BuilderReachable (c.with_padding p)
  | with_start (c : ChunkConfig) (s : Nat) (hc : BuilderReachable c) :
      BuilderReachable (c.with_start s)
  | with_end (c : ChunkConfig) (e : Nat) (hc : BuilderReachable c) :
      BuilderReachable (c.with_end e)

/-- Modelled from the spec: the chunk iterator's source (`chunking/iters.rs`)
is not under `src/`; spec §4.2 defines each step at cursor `c` by
`data_end = min(end, c + data_height)`, advancing the cursor to `data_end`
while `c < end`.  This returns the trace of `(c, data_end)` data portions;
the fuel argument makes the recursion structural and exceeds the step count
whenever `data_height > 0`. -/
def chunk_steps_aux (cfg : ChunkConfig) : Nat → Nat → List (Nat × Nat)
  | 0, _ => []
  | fuel + 1, c =>
    if c < cfg.end_ then
      let data_end := min cfg.end_ (c + cfg.data_height)
      (c, data_end) :: chunk_steps_aux cfg fuel data_end
    else []

/-- Modelled from the spec: the `(cursor, data_end)` trace of the chunk
iterator, starting from `cfg.start`. -/
def chunk_steps (cfg : ChunkConfig) : List (Nat × Nat) :=
  chunk_steps_aux cfg (cfg.end_ - cfg.start + 1) cfg.start

/-- Modelled from the spec (§4.2 steps 2–4): the emitted window of a step —
`window_start = max(0, c − padding)` (`Nat` truncated subtraction),
`window_end = min(height, data_end + padding)`, emitted as
`(window_start, window_end − window_start)`. -/
def chunk_window_of_step (cfg : ChunkConfig) (p : Nat × Nat) : Nat × Nat :=
  let window_start := p.1 - cfg.padding
  let window_end := min cfg.height (p.2 + cfg.padding)
  (window_start, window_end - window_start)

/-- Modelled from the spec: the `(window start, window size)` pairs emitted
by the chunk iterator, in order. -/
def chunk_windows (cfg : ChunkConfig) : List (Nat × Nat) :=
  (chunk_steps cfg).map (chunk_window_of_step cfg)

/-- Source `align.rs::chunk_transform`: the residue of a transform for a pair of
chunk offsets, exactly as implemented — compose `translate(-1, -1)` with
the transform, apply to `off_1`, subtract `off_2`, and compose a
translation by the result with the transform. -/
def chunk_transform (transform : AffineTransform) (off_1 off_2 : Nat × Nat) :
    AffineTransform :=
  let residue :=
    ((AffineTransform.translate (-1) (-1)).compose transform).apply
        ⟨(as_f64 off_1).1, (as_f64 off_1).2⟩ -
      (⟨(as_f64 off_2).1, (as_f64 off_2).2⟩ : Coord)
  (AffineTransform.translate residue.x residue.y).compose transform

/-- The coordinate `pt` computed inside `index_transformer`: the chunk
transform applied to the `f64` cast of the integer input indices. -/
def transformed_index (chunk_t : AffineTransform) (indexes : Nat × Nat) : Coord :=
  chunk_t.apply ⟨((indexes.1 : ℚ)), ((indexes.2 : ℚ))⟩

/-- Source `align.rs::index_transformer`: bounds-checked application of a chunk
transform, taking `(col, row)`-ordered input and producing `(row, col)`
output. -/
def index_transformer (chunk_t : AffineTransform) (dim : Nat × Nat)
    (indexes : Nat × Nat) : Option (Nat × Nat) :=
  let cols := dim.1
  let rows := dim.2
  let pt := transformed_index chunk_t indexes
  if pt.x < 0 ∨ pt.y < 0 then none
  else
    let jj := pt.x.floor.toNat
    let ii := pt.y.floor.toNat
    if cols ≤ jj ∨ rows ≤ ii then none else some (ii, jj)

/-! Helper lemmas. -/

theorem Coord.add_def (p q : Coord) : p + q = ⟨p.x + q.x, p.y + q.y⟩ := rfl

theorem Coord.sub_def (p q : Coord) : p - q = ⟨p.x - q.x, p.y - q.y⟩ := rfl

theorem rat_floor_natCast (n : ℕ) : ((n : ℚ)).floor = (n : ℤ) := by
  simp [Rat.floor_def']

theorem from_offset_size_offset (o s : Nat × Nat) :
    (RasterWindow.from_offset_size o s).offset = o := by
  obtain ⟨o1, o2⟩ := o
  obtain ⟨s1, s2⟩ := s
  have h1 : ((o1 : ℚ)) ≤ (o1 : ℚ) + (s1 : ℚ) := le_add_of_nonneg_right (by positivity)
  have h2 : ((o2 : ℚ)) ≤ (o2 : ℚ) + (s2 : ℚ) := le_add_of_nonneg_right (by positivity)
  simp [RasterWindow.from_offset_size, RasterWindow.offset, Rect.new, as_usize, as_f64,
    Coord.add_def, min_eq_left h1, min_eq_left h2, rat_floor_natCast]

theorem from_offset_size_size (o s : Nat × Nat) :
    (RasterWindow.from_offset_size o s).size = s := by
  obtain ⟨o1, o2⟩ := o
  obtain ⟨s1, s2⟩ := s
  have h1 : ((o1 : ℚ)) ≤ (o1 : ℚ) + (s1 : ℚ) := le_add_of_nonneg_right (by positivity)
  have h2 : ((o2 : ℚ)) ≤ (o2 : ℚ) + (s2 : ℚ) := le_add_of_nonneg_right (by positivity)
  simp [RasterWindow.from_offset_size, RasterWindow.size, Rect.new, as_usize, as_f64,
    Coord.add_def, min_eq_left h1, min_eq_left h2, max_eq_right h1, max_eq_right h2,
    add_sub_cancel_left, rat_floor_natCast]

theorem chunk_transform_identity_val :
    chunk_transform AffineTransform.identity (0, 0) (0, 0) =
      AffineTransform.translate (-1) (-1) := by
  simp [chunk_transform, AffineTransform.compose, AffineTransform.apply,
    AffineTransform.translate, AffineTransform.identity, as_f64, Coord.sub_def]

/-! Claim theorems. -/

/-- C1: the claim states that `chunk_transform t origin_A origin_B` has the
linear part of `t` and translation `t(origin_A) − origin_B`.  The code
contradicts its own derivation comment: at the identity transform with both
origins `(0, 0)` the claimed result is the identity transform, but the
implementation's `translate(-1, -1)` factor makes it the translation by
`(-1, -1)` (this value is independent of the compose-order convention,
since both composed factors involve the identity transform). -/
theorem chunk_transform_identity_eval :
    chunk_transform AffineTransform.identity (0, 0) (0, 0) =
        AffineTransform.translate (-1) (-1) ∧
      chunk_transform AffineTransform.identity (0, 0) (0, 0) ≠
        AffineTransform.identity := by
  refine ⟨chunk_transform_identity_val, ?_⟩
  rw [chunk_transform_identity_val]
  norm_num [AffineTransform.translate, AffineTransform.identity, AffineTransform.mk.injEq]

/-- C2: the claim states that converting a `ChunkWindow` triple
`(cfg, start row, row count)` yields size `(cfg.width, row count)`.  The
code computes `end - start` from the triple, treating the third element as
an end row: on the triple `(cfg, 2, 15)` with `cfg.width = 32` it yields
size `(32, 13)` instead of the claimed `(32, 15)`. -/
theorem chunk_window_conversion_eval :
    (RasterWindow.from_chunk_window (ChunkConfigBuilder.new 32 20) 2 15).size
        = (32, 13) ∧
      (RasterWindow.from_chunk_window (ChunkConfigBuilder.new 32 20) 2 15).size
        ≠ (32, 15) := by
  have h : (RasterWindow.from_chunk_window (ChunkConfigBuilder.new 32 20) 2 15).size
      = (32, 13) := from_offset_size_size (0, 2) (32, 13)
  exact ⟨h, by rw [h]; decide⟩

/-- C3: the claim states that with the identity grid-to-grid transform and
equal origins, `index_transformer` maps every in-bounds local index to
itself — in particular `(0, 0)` to `some (0, 0)` for dimensions `(4, 4)`.
The code's chunk transform is the translation by `(-1, -1)` there, so the
transformed point is negative and the result is `none`. -/
theorem index_transformer_identity_eval :
    index_transformer (chunk_transform AffineTransform.identity (0, 0) (0, 0))
        (4, 4) (0, 0) = none ∧
      index_transformer (chunk_transform AffineTransform.identity (0, 0) (0, 0))
        (4, 4) (0, 0) ≠ some (0, 0) := by
  have hnone : index_transformer
      (chunk_transform AffineTransform.identity (0, 0) (0, 0)) (4, 4) (0, 0) = none := by
    rw [chunk_transform_identity_val]
    norm_num [index_transformer, transformed_index, AffineTransform.apply,
      AffineTransform.translate]
  exact ⟨hnone, by rw [hnone]; simp⟩

/-- C4: the configuration built with width 32, height 20, accumulated block
size 2, padding 7 and end 10 yields exactly the windows `(0, 16)` then
`(2, 15)` as `(window start, window size)` pairs. -/
theorem chunk_iterator_simple_scenario :
    chunk_windows
        ((((ChunkConfigBuilder.new 32 20).add_block_size 2).with_padding 7).with_end
          10) = [(0, 16), (2, 15)] := by
  decide

/-- C6: `index_transformer` returns `none` exactly when a transformed
coordinate is negative or a floored coordinate reaches its dimension bound,
and otherwise returns the floored pair reordered to `(row, col)`. -/
theorem index_transformer_bounds_spec (t : AffineTransform) (dim idx : Nat × Nat) :
    (index_transformer t dim idx = none ↔
      (transformed_index t idx).x < 0 ∨ (transformed_index t idx).y < 0 ∨
        (dim.1 : ℤ) ≤ (transformed_index t idx).x.floor ∨
        (dim.2 : ℤ) ≤ (transformed_index t idx).y.floor) ∧
    (¬((transformed_index t idx).x < 0 ∨ (transformed_index t idx).y < 0 ∨
        (dim.1 : ℤ) ≤ (transformed_index t idx).x.floor ∨
        (dim.2 : ℤ) ≤ (transformed_index t idx).y.floor) →
      index_transformer t dim idx =
        some ((transformed_index t idx).y.floor.toNat,
          (transformed_index t idx).x.floor.toNat)) := by
  set pt := transformed_index t idx with hpt
  have hdef : index_transformer t dim idx =
      if pt.x < 0 ∨ pt.y < 0 then none
      else if dim.1 ≤ pt.x.floor.toNat ∨ dim.2 ≤ pt.y.floor.toNat then none
      else some (pt.y.floor.toNat, pt.x.floor.toNat) := rfl
  by_cases hneg : pt.x < 0 ∨ pt.y < 0
  · rw [hdef, if_pos hneg]
    exact ⟨⟨fun _ => by tauto, fun _ => rfl⟩, fun hcon => absurd (by tauto) hcon⟩
  · push_neg at hneg
    have hfx : (0 : ℤ) ≤ pt.x.floor := Rat.le_floor.mpr (by exact_mod_cast hneg.1)
    have hfy : (0 : ℤ) ≤ pt.y.floor := Rat.le_floor.mpr (by exact_mod_cast hneg.2)
    have hcx : dim.1 ≤ pt.x.floor.toNat ↔ (dim.1 : ℤ) ≤ pt.x.floor := Int.le_toNat hfx
    have hcy : dim.2 ≤ pt.y.floor.toNat ↔ (dim.2 : ℤ) ≤ pt.y.floor := Int.le_toNat hfy
    have hnx : ¬ pt.x < 0 := not_lt.mpr hneg.1
    have hny : ¬ pt.y < 0 := not_lt.mpr hneg.2
    rw [hdef, if_neg (by tauto : ¬(pt.x < 0 ∨ pt.y < 0))]
    by_cases hbound : dim.1 ≤ pt.x.floor.toNat ∨ dim.2 ≤ pt.y.floor.toNat
    · rw [if_pos hbound]
      have hrhs : pt.x < 0 ∨ pt.y < 0 ∨ (dim.1 : ℤ) ≤ pt.x.floor ∨
          (dim.2 : ℤ) ≤ pt.y.floor := by
        rcases hbound with hb | hb
        · exact Or.inr (Or.inr (Or.inl (hcx.mp hb)))
        · exact Or.inr (Or.inr (Or.inr (hcy.mp hb)))
      exact ⟨⟨fun _ => hrhs, fun _ => rfl⟩, fun hcon => absurd hrhs hcon⟩
    · rw [if_neg hbound]
      have hnrhs : ¬(pt.x < 0 ∨ pt.y < 0 ∨ (dim.1 : ℤ) ≤ pt.x.floor ∨
          (dim.2 : ℤ) ≤ pt.y.floor) := by
        rintro (hh | hh | hh | hh)
        · exact hnx hh
        · exact hny hh
        · exact hbound (Or.inl (hcx.mpr hh))
        · exact hbound (Or.inr (hcy.mpr hh))
      exact ⟨⟨fun hh => absurd hh (by simp), fun hh => absurd hh hnrhs⟩, fun _ => rfl⟩

/-- Witness for C6 at the identity-like transform `translate 0 0`,
dimensions `(3, 3)` and input `(1, 2)`: in bounds, mapped to `(2, 1)`. -/
theorem index_transformer_bounds_spec_witness :
    ¬((transformed_index (AffineTransform.translate 0 0) (1, 2)).x < 0 ∨
        (transformed_index (AffineTransform.translate 0 0) (1, 2)).y < 0 ∨
        (3 : ℤ) ≤ (transformed_index (AffineTransform.translate 0 0) (1, 2)).x.floor ∨
        (3 : ℤ) ≤ (transformed_index (AffineTransform.translate 0 0) (1, 2)).y.floor) ∧
      index_transformer (AffineTransform.translate 0 0) (3, 3) (1, 2) = some (2, 1) := by
  have hval : transformed_index (AffineTransform.translate 0 0) (1, 2) =
      ⟨1, 2⟩ := by
    norm_num [transformed_index, AffineTransform.apply, AffineTransform.translate]
  have hh : ¬((transformed_index (AffineTransform.translate 0 0) (1, 2)).x < 0 ∨
      (transformed_index (AffineTransform.translate 0 0) (1, 2)).y < 0 ∨
      (3 : ℤ) ≤ (transformed_index (AffineTransform.translate 0 0) (1, 2)).x.floor ∨
      (3 : ℤ) ≤ (transformed_index (AffineTransform.translate 0 0) (1, 2)).y.floor) := by
    rw [hval]
    norm_num [Rat.floor_def']
  refine ⟨hh, ?_⟩
  have h2 := (index_transformer_bounds_spec (AffineTransform.translate 0 0) (3, 3) (1, 2)).2 hh
  rw [h2, hval]
  norm_num [Rat.floor_def']
  decide

theorem add_block_size_block_size (c : ChunkConfig) (b : Nat) :
    (c.add_block_size b).block_size = Nat.lcm c.block_size b := by
  by_cases h : c.block_size = b
  · simp [ChunkConfig.add_block_size, h, Nat.lcm_self]
  · simp [ChunkConfig.add_block_size, h, ChunkConfig.adjust_data_height]

theorem add_block_sizes_block_size (c : ChunkConfig) (l : List Nat) :
    (c.add_block_sizes l).block_size = l.foldl Nat.lcm c.block_size := by
  induction l generalizing c with
  | nil => rfl
  | cons x xs ih =>
    have hrw : ChunkConfig.add_block_sizes c (x :: xs) =
        ChunkConfig.add_block_sizes (c.add_block_size x) xs := rfl
    rw [hrw, ih, add_block_size_block_size]
    rfl

theorem foldl_lcm_perm {l l' : List Nat} (h : l.Perm l') :
    ∀ a : Nat, l.foldl Nat.lcm a = l'.foldl Nat.lcm a := by
  induction h with
  | nil => intro a; rfl
  | cons x _ ih => intro a; simpa using ih (Nat.lcm a x)
  | swap x y l =>
    intro a
    show (l.foldl Nat.lcm (Nat.lcm (Nat.lcm a y) x)) =
      (l.foldl Nat.lcm (Nat.lcm (Nat.lcm a x) y))
    rw [Nat.lcm_assoc, Nat.lcm_assoc, Nat.lcm_comm y x]
  | trans _ _ ih1 ih2 => intro a; rw [ih1 a, ih2 a]

theorem foldl_lcm_eq_foldr (l : List Nat) :
    ∀ a : Nat, l.foldl Nat.lcm a = Nat.lcm a (l.foldr Nat.lcm 1) := by
  induction l with
  | nil => intro a; simp
  | cons x xs ih =>
    intro a
    show xs.foldl Nat.lcm (Nat.lcm a x) = Nat.lcm a (Nat.lcm x (xs.foldr Nat.lcm 1))
    rw [ih (Nat.lcm a x), Nat.lcm_assoc]

/-- C7: starting from a fresh builder (block size 1) and accumulating block
sizes in any order, the final `block_size` is the lcm of all of them (the
lcm of the list `b1, …, bn` is its `foldr Nat.lcm 1`). -/
theorem block_size_lcm_accumulation (w h : Nat) (l l' : List Nat)
    (hperm : l.Perm l') (hpos : ∀ b ∈ l, 0 < b) :
    ((ChunkConfigBuilder.new w h).add_block_sizes l').block_size =
      l.foldr Nat.lcm 1 := by
  rw [add_block_sizes_block_size, ← foldl_lcm_perm hperm]
  show l.foldl Nat.lcm 1 = l.foldr Nat.lcm 1
  rw [foldl_lcm_eq_foldr l 1, Nat.lcm_comm, Nat.lcm_one_right]

/-- Witness for C7, accumulating `[4, 2, 3]` (a permutation of `[2, 3, 4]`)
onto a fresh builder: the block size is `lcm(2, 3, 4) = 12`. -/
theorem block_size_lcm_accumulation_witness :
    ([2, 3, 4] : List Nat).Perm [4, 2, 3] ∧ (∀ b ∈ ([2, 3, 4] : List Nat), 0 < b) ∧
      ((ChunkConfigBuilder.new 10 10).add_block_sizes [4, 2, 3]).block_size =
        ([2, 3, 4] : List Nat).foldr Nat.lcm 1 :=
  ⟨by decide, by decide,
    block_size_lcm_accumulation 10 10 [2, 3, 4] [4, 2, 3] (by decide) (by decide)⟩

theorem next_multiple_pos {n m : Nat} (hn : 0 < n) (hm : 0 < m) :
    0 < next_multiple n m := by
  unfold next_multiple
  have h1 : 1 ≤ (n + m - 1) / m := (Nat.one_le_div_iff hm).mpr (by omega)
  exact Nat.mul_pos h1 hm

theorem next_multiple_dvd (n m : Nat) : m ∣ next_multiple n m := by
  unfold next_multiple
  exact dvd_mul_left m _

theorem builder_inv {c : ChunkConfig} (h : BuilderReachable c) :
    0 < c.width ∧ 0 < c.block_size ∧ 0 < c.data_height ∧
      c.block_size ∣ c.data_height ∧ c.padding ≤ c.start ∧ c.end_ ≤ c.height := by
  induction h with
  | new w hgt hw hh =>
    exact ⟨hw, one_pos, one_pos, dvd_refl 1, le_refl 0, le_refl hgt⟩
  | add_block_size c b hc hb ih =>
    obtain ⟨hw, hbs, hdh, hdvd, hps, heh⟩ := ih
    by_cases he : c.block_size = b
    · unfold ChunkConfig.add_block_size
      rw [if_neg (fun hn => hn he)]
      exact ⟨hw, hbs, hdh, hdvd, hps, heh⟩
    · have hlcm : 0 < Nat.lcm c.block_size b := Nat.lcm_pos hbs hb
      unfold ChunkConfig.add_block_size ChunkConfig.adjust_data_height
      rw [if_pos he]
      exact ⟨hw, hlcm, next_multiple_pos hdh hlcm, next_multiple_dvd _ _, hps, heh⟩
  | with_data_height c hgt hc hh ih =>
    obtain ⟨hw, hbs, hdh, hdvd, hps, heh⟩ := ih
    exact ⟨hw, hbs, next_multiple_pos hh hbs, next_multiple_dvd _ _, hps, heh⟩
  | with_data_size c s hc hs ih =>
    obtain ⟨hw, hbs, hdh, hdvd, hps, heh⟩ := ih
    have hq : 0 < (s + c.width - 1) / c.width := (Nat.one_le_div_iff hw).mpr (by omega)
    exact ⟨hw, hbs, next_multiple_pos hq hbs, next_multiple_dvd _ _, hps, heh⟩
  | with_padding c p hc ih =>
    obtain ⟨hw, hbs, hdh, hdvd, hps, heh⟩ := ih
    exact ⟨hw, hbs, hdh, hdvd, le_max_right _ _, heh⟩
  | with_start c s hc ih =>
    obtain ⟨hw, hbs, hdh, hdvd, hps, heh⟩ := ih
    exact ⟨hw, hbs, hdh, hdvd, le_max_right _ _, heh⟩
  | with_end c e hc ih =>
    obtain ⟨hw, hbs, hdh, hdvd, hps, heh⟩ := ih
    exact ⟨hw, hbs, hdh, hdvd, hps, min_le_right _ _⟩

/-- C8: after construction and after every builder operation, the held
configuration has a positive `data_height` that is an exact multiple of
`block_size`, `start ≥ padding`, and `end ≤ height`. -/
theorem builder_invariants (c : ChunkConfig) (h : BuilderReachable c) :
    0 < c.data_height ∧ c.block_size ∣ c.data_height ∧
      c.padding ≤ c.start ∧ c.end_ ≤ c.height := by
  obtain ⟨_, _, h3, h4, h5, h6⟩ := builder_inv h
  exact ⟨h3, h4, h5, h6⟩

/-- Witness for C8 on the builder chain of the reference test scenario. -/
theorem builder_invariants_witness :
    0 < ((((ChunkConfigBuilder.new 32 20).add_block_size 2).with_padding
          7).with_end 10).data_height ∧
      ((((ChunkConfigBuilder.new 32 20).add_block_size 2).with_padding
            7).with_end 10).block_size ∣
        ((((ChunkConfigBuilder.new 32 20).add_block_size 2).with_padding
            7).with_end 10).data_height ∧
      ((((ChunkConfigBuilder.new 32 20).add_block_size 2).with_padding
            7).with_end 10).padding ≤
        ((((ChunkConfigBuilder.new 32 20).add_block_size 2).with_padding
            7).with_end 10).start ∧
      ((((ChunkConfigBuilder.new 32 20).add_block_size 2).with_padding
            7).with_end 10).end_ ≤
        ((((ChunkConfigBuilder.new 32 20).add_block_size 2).with_padding
            7).with_end 10).height :=
  builder_invariants _
    (BuilderReachable.with_end _ 10
      (BuilderReachable.with_padding _ 7
        (BuilderReachable.add_block_size _ 2
          (BuilderReachable.new 32 20 (by decide) (by decide)) (by decide))))

theorem range'_split (m : Nat) : ∀ a n : Nat,
    List.range' a (m + n) = List.range' a m ++ List.range' (a + m) n := by
  induction m with
  | zero => intro a n; simp
  | succ k ih =>
    intro a n
    rw [Nat.succ_add, List.range'_succ, List.range'_succ, ih (a + 1) n,
      show a + 1 + k = a + (k + 1) from by omega]
    rfl

theorem chunk_steps_aux_cover (cfg : ChunkConfig) (hdh : 0 < cfg.data_height) :
    ∀ fuel c : Nat, cfg.end_ - c < fuel →
      ((chunk_steps_aux cfg fuel c).flatMap fun p => List.range' p.1 (p.2 - p.1)) =
        List.range' c (cfg.end_ - c) := by
  intro fuel
  induction fuel with
  | zero => intro c hc; exact absurd hc (Nat.not_lt_zero _)
  | succ k ih =>
    intro c hc
    by_cases h : c < cfg.end_
    · have hstep : chunk_steps_aux cfg (k + 1) c =
          (c, min cfg.end_ (c + cfg.data_height)) ::
            chunk_steps_aux cfg k (min cfg.end_ (c + cfg.data_height)) := by
        simp [chunk_steps_aux, h]
      have hc1 : c < min cfg.end_ (c + cfg.data_height) := by omega
      have hc2 : min cfg.end_ (c + cfg.data_height) ≤ cfg.end_ := min_le_left _ _
      rw [hstep, List.flatMap_cons, ih (min cfg.end_ (c + cfg.data_height)) (by omega),
        show cfg.end_ - c = (min cfg.end_ (c + cfg.data_height) - c) +
          (cfg.end_ - min cfg.end_ (c + cfg.data_height)) from by omega,
        range'_split,
        show c + (min cfg.end_ (c + cfg.data_height) - c) =
          min cfg.end_ (c + cfg.data_height) from by omega]
    · have hstep : chunk_steps_aux cfg (k + 1) c = [] := by
        simp [chunk_steps_aux, h]
      rw [hstep, show cfg.end_ - c = 0 from by omega]
      simp

/-- C5: for every valid configuration the `(data start, data end)` portions
of the iterator's steps — `chunk_steps`, whose image under
`chunk_window_of_step` is the emitted window list — concatenate, in
emission order, to exactly the half-open row range `[start, end)` (so no
gaps and no overlaps), and `start = end` yields no windows at all. -/
theorem chunk_iterator_coverage (cfg : ChunkConfig) (hv : cfg.Valid) :
    ((chunk_steps cfg).flatMap fun p => List.range' p.1 (p.2 - p.1)) =
        List.range' cfg.start (cfg.end_ - cfg.start) ∧
      (cfg.start = cfg.end_ → chunk_windows cfg = []) := by
  obtain ⟨-, -, -, hdh, -, -, -⟩ := hv
  constructor
  · exact chunk_steps_aux_cover cfg hdh _ cfg.start (by omega)
  · intro he
    have hempty : chunk_steps cfg = [] := by
      unfold chunk_steps
      rw [he]
      simp [chunk_steps_aux]
    simp [chunk_windows, hempty]

/-- Witness for C5 on the reference scenario's configuration, plus a
degenerate configuration with `start = end` producing no windows. -/
theorem chunk_iterator_coverage_witness :
    ChunkConfig.Valid ⟨32, 20, 2, 2, 7, 7, 10⟩ ∧
      (((chunk_steps ⟨32, 20, 2, 2, 7, 7, 10⟩).flatMap fun p =>
          List.range' p.1 (p.2 - p.1)) = List.range' 7 3) ∧
      ChunkConfig.Valid ⟨32, 20, 2, 2, 7, 10, 10⟩ ∧
      chunk_windows ⟨32, 20, 2, 2, 7, 10, 10⟩ = [] :=
  ⟨by decide, (chunk_iterator_coverage ⟨32, 20, 2, 2, 7, 7, 10⟩ (by decide)).1,
    by decide, (chunk_iterator_coverage ⟨32, 20, 2, 2, 7, 10, 10⟩ (by decide)).2 rfl⟩

/-- C9: converting an integer `(offset, size)` pair into a `RasterWindow`
and reading back `offset()` and `size()` returns the original pair. -/
theorem raster_window_offset_size_roundtrip (o s : Nat × Nat) :
    (RasterWindow.from_offset_size o s).offset = o ∧
      (RasterWindow.from_offset_size o s).size = s :=
  ⟨from_offset_size_offset o s, from_offset_size_size o s⟩

/-- C10: for the window built from offset `(ox, oy)` and size `(sx, sy)`,
`num_pixels()` is `sx · sy` and `shape()` is the transposed pair
`(sy, sx)`, so a buffer of `num_pixels()` elements matches `shape()`. -/
theorem raster_window_num_pixels_shape (o s : Nat × Nat) :
    (RasterWindow.from_offset_size o s).num_pixels = s.1 * s.2 ∧
      (RasterWindow.from_offset_size o s).shape = (s.2, s.1) := by
  constructor
  · obtain ⟨o1, o2⟩ := o
    obtain ⟨s1, s2⟩ := s
    have h1 : ((o1 : ℚ)) ≤ (o1 : ℚ) + (s1 : ℚ) := le_add_of_nonneg_right (by positivity)
    have h2 : ((o2 : ℚ)) ≤ (o2 : ℚ) + (s2 : ℚ) := le_add_of_nonneg_right (by positivity)
    simp [RasterWindow.from_offset_size, RasterWindow.num_pixels, Rect.new, as_f64,
      Coord.add_def, min_eq_left h1, min_eq_left h2, max_eq_right h1, max_eq_right h2,
      add_sub_cancel_left]
    rw [← Nat.cast_mul, rat_floor_natCast, Int.toNat_natCast]
  · simp [RasterWindow.shape, from_offset_size_size]

end RasterUtils
